import Mathlib

/-!
Verification development for the trailing-stop drawdown risk monitor
(`TrailingStopRiskManagementModel.ManageRisk` and its constructor).

Prices and the drawdown fraction are modelled as exact rationals (`ℚ`);
the per-instrument trailing-high dictionary is modelled as an association
list with Python-dict semantics (unique keys on every reachable state,
`get` reads the first matching key, assignment updates in place or appends,
`pop` removes the key).
-/

/-- Snapshot entry for one instrument on one evaluation tick: the data the
loop in `ManageRisk` reads from `algorithm.Securities` for one security
(`kvp.Key`, `security.Invested`, `security.High`, `security.Low`). -/
structure Entry where
  symbol : ℕ
  invested : Bool
  high : ℚ
  low : ℚ
deriving DecidableEq, Repr

/-- Liquidation instruction `PortfolioTarget(symbol, quantity)`; the monitor
only ever emits quantity `0`. -/
structure PortfolioTarget where
  symbol : ℕ
  quantity : ℚ
deriving DecidableEq, Repr

/-- The `trailingHighs` dictionary: identifier to stored trailing high. -/
abbrev TrailingHighs := List (ℕ × ℚ)

/-- Dictionary read `d.get(k)`: first entry with the key, if any. -/
def dictGet : TrailingHighs → ℕ → Option ℚ
  | [], _ => none
  | (k, v) :: rest, s => if k = s then some v else dictGet rest s

/-- Dictionary removal `d.pop(k, None)`: drops the entries with key `k`
(exactly one on any state with unique keys, as every reachable dict has). -/
def dictPop (th : TrailingHighs) (s : ℕ) : TrailingHighs :=
  th.filter (fun p => p.1 != s)

/-- Dictionary assignment `d[k] = v`: updates the first entry with key `k`
in place, or appends a fresh entry when the key is absent. -/
def dictSet : TrailingHighs → ℕ → ℚ → TrailingHighs
  | [], s, v => [(s, v)]
  | (k, w) :: rest, s, v =>
    if k = s then (k, v) :: rest else (k, w) :: dictSet rest s v

/-- The monitor: configured drawdown fraction and the mutable
`trailingHighs` dictionary. -/
structure TrailingStopRiskManagementModel where
  maximumDrawdownPercent : ℚ
  trailingHighs : TrailingHighs
deriving DecidableEq, Repr

/-- Constructor `__init__`: stores the absolute value of the configured
drawdown fraction and starts with an empty dictionary. -/
def TrailingStopRiskManagementModel.init (maximumDrawdownPercent : ℚ) :
    TrailingStopRiskManagementModel :=
  { maximumDrawdownPercent := |maximumDrawdownPercent|
    trailingHighs := [] }

/-- One iteration of the `ManageRisk` loop body for a single security:
evict when not invested; establish or advance the trailing high when it is
absent or strictly exceeded; otherwise emit `PortfolioTarget(symbol, 0)`
exactly when the low is strictly below `maxHigh * (1 - f)`. Returns the
updated dictionary and the targets appended by this iteration. -/
def manageRiskStep (f : ℚ) (th : TrailingHighs) (e : Entry) :
    TrailingHighs × List PortfolioTarget :=
  if e.invested = false then
    (dictPop th e.symbol, [])
  else
    match dictGet th e.symbol with
    | none => (dictSet th e.symbol e.high, [])
    | some maxHigh =>
      if maxHigh < e.high then
        (dictSet th e.symbol e.high, [])
      else if e.low < maxHigh * (1 - f) then
        (th, [PortfolioTarget.mk e.symbol 0])
      else
        (th, [])

/-- The `ManageRisk` loop over the whole snapshot, threading the dictionary
and collecting `riskAdjustedTargets` in iteration order. -/
def manageRisk (f : ℚ) : TrailingHighs → List Entry → TrailingHighs × List PortfolioTarget
  | th, [] => (th, [])
  | th, e :: es =>
    let r := manageRiskStep f th e
    let rest := manageRisk f r.1 es
    (rest.1, r.2 ++ rest.2)

/-- Method `ManageRisk` on the model: runs the loop against the stored
state and returns the updated model with the emitted targets. -/
def TrailingStopRiskManagementModel.ManageRisk
    (m : TrailingStopRiskManagementModel) (snapshot : List Entry) :
    TrailingStopRiskManagementModel × List PortfolioTarget :=
  let r := manageRisk m.maximumDrawdownPercent m.trailingHighs snapshot
  ({ m with trailingHighs := r.1 }, r.2)

/-- Repeated evaluation: one `ManageRisk` call per tick, collecting each
tick's output list separately. -/
def evalTicks (f : ℚ) : TrailingHighs → List (List Entry) → TrailingHighs × List (List PortfolioTarget)
  | th, [] => (th, [])
  | th, t :: ts =>
    let r := manageRisk f th t
    let rest := evalTicks f r.1 ts
    (rest.1, r.2 :: rest.2)

/-- Repeated evaluation at the model level. -/
def evalTicksModel (m : TrailingStopRiskManagementModel) :
    List (List Entry) → TrailingStopRiskManagementModel × List (List PortfolioTarget)
  | [] => (m, [])
  | t :: ts =>
    let r := m.ManageRisk t
    let rest := evalTicksModel r.1 ts
    (rest.1, r.2 :: rest.2)

/-- Per-identifier view of one loop iteration: the same decision as
`manageRiskStep`, expressed on the single stored value for the entry's own
identifier instead of the whole dictionary. Proven to agree with
`manageRiskStep` in `manageRiskStep_proj_eq`. -/
def stepSym (f : ℚ) (st : Option ℚ) (e : Entry) : Option ℚ × List PortfolioTarget :=
  if e.invested = false then
    (none, [])
  else
    match st with
    | none => (some e.high, [])
    | some maxHigh =>
      if maxHigh < e.high then
        (some e.high, [])
      else if e.low < maxHigh * (1 - f) then
        (some maxHigh, [PortfolioTarget.mk e.symbol 0])
      else
        (some maxHigh, [])

/-- Per-identifier view of a whole evaluation pass over the entries that
carry one identifier. -/
def runSym (f : ℚ) : Option ℚ → List Entry → Option ℚ × List PortfolioTarget
  | st, [] => (st, [])
  | st, e :: es =>
    let r := stepSym f st e
    let rest := runSym f r.1 es
    (rest.1, r.2 ++ rest.2)

/-- Per-identifier view of repeated evaluation, keeping tick boundaries. -/
def runSymTicks (f : ℚ) : Option ℚ → List (List Entry) → Option ℚ × List (List PortfolioTarget)
  | st, [] => (st, [])
  | st, t :: ts =>
    let r := runSym f st t
    let rest := runSymTicks f r.1 ts
    (rest.1, r.2 :: rest.2)

-- Scenario A/B/C sanity checks: f = 0.05.
example :
    (evalTicks (1/20) []
      [[Entry.mk 0 true 100 98], [Entry.mk 0 true 100 94]]).2
      = [[], [PortfolioTarget.mk 0 0]] := by with_unfolding_all decide

example :
    (evalTicks (1/20) []
      [[Entry.mk 0 true 100 98], [Entry.mk 0 true 100 94],
       [Entry.mk 0 false 0 0], [Entry.mk 0 true 80 70]]).1
      = [(0, 80)] := by with_unfolding_all decide

example :
    (evalTicks (1/20) []
      [[Entry.mk 1 true 50 50], [Entry.mk 1 true 55 48]]).2
      = [[], []] := by with_unfolding_all decide

/-- Lookup after removal: removing key `k` erases exactly `k` and leaves
every other key's binding intact. -/
theorem dictGet_dictPop (k s : ℕ) : ∀ th : TrailingHighs,
    dictGet (dictPop th k) s = if s = k then none else dictGet th s := by
  intro th
  induction th with
  | nil => simp [dictPop, dictGet]
  | cons p rest ih =>
    obtain ⟨a, b⟩ := p
    by_cases hak : a = k
    · subst hak
      have h1 : dictGet (dictPop ((a, b) :: rest) a) s = dictGet (dictPop rest a) s := by
        simp [dictPop, List.filter_cons]
      rw [h1, ih]
      by_cases hsk : s = a
      · simp [hsk]
      · simp [dictGet, hsk, Ne.symm hsk]
    · by_cases has : a = s
      · subst has
        simp [dictPop, List.filter_cons, dictGet, hak, Ne.symm hak] at ih ⊢
      · by_cases hsk : s = k <;>
          simp [dictPop, List.filter_cons, dictGet, hak, has, hsk] at ih ⊢ <;>
          simpa [dictGet, hsk] using ih

/-- Lookup after assignment: writing key `k` sets exactly `k` and leaves
every other key's binding intact. -/
theorem dictGet_dictSet (k s : ℕ) (v : ℚ) : ∀ th : TrailingHighs,
    dictGet (dictSet th k v) s = if k = s then some v else dictGet th s := by
  intro th
  induction th with
  | nil => simp [dictSet, dictGet]
  | cons p rest ih =>
    obtain ⟨a, b⟩ := p
    by_cases hak : a = k
    · subst hak
      by_cases has : a = s <;> simp [dictSet, dictGet, has]
    · by_cases has : a = s
      · subst has
        simp [dictSet, dictGet, hak, Ne.symm hak]
      · simp [dictSet, dictGet, hak, has, ih]

/-- One loop iteration seen through its own identifier: the dictionary
after the step holds exactly the per-identifier result, and the targets it
appends are exactly the per-identifier targets. -/
theorem manageRiskStep_proj_eq (f : ℚ) (th : TrailingHighs) (e : Entry) (s : ℕ)
    (hs : e.symbol = s) :
    dictGet (manageRiskStep f th e).1 s = (stepSym f (dictGet th s) e).1
    ∧ (manageRiskStep f th e).2.filter (fun t => t.symbol == s)
        = (stepSym f (dictGet th s) e).2 := by
  subst hs
  by_cases hinv : e.invested = false
  · simp [manageRiskStep, stepSym, hinv, dictGet_dictPop]
  · rcases hd : dictGet th e.symbol with _ | m
    · simp [manageRiskStep, stepSym, hinv, hd, dictGet_dictSet]
    · by_cases hlt : m < e.high
      · simp [manageRiskStep, stepSym, hinv, hd, hlt, dictGet_dictSet]
      · by_cases hlow : e.low < m * (1 - f)
        · simp [manageRiskStep, stepSym, hinv, hd, hlt, hlow, List.filter_cons]
        · simp [manageRiskStep, stepSym, hinv, hd, hlt, hlow]

/-- One loop iteration seen through a different identifier: the binding is
untouched and no target for that identifier is appended. -/
theorem manageRiskStep_proj_ne (f : ℚ) (th : TrailingHighs) (e : Entry) (s : ℕ)
    (hs : e.symbol ≠ s) :
    dictGet (manageRiskStep f th e).1 s = dictGet th s
    ∧ (manageRiskStep f th e).2.filter (fun t => t.symbol == s) = [] := by
  by_cases hinv : e.invested = false
  · simp [manageRiskStep, hinv, dictGet_dictPop, Ne.symm hs]
  · rcases hd : dictGet th e.symbol with _ | m
    · simp [manageRiskStep, hinv, hd, dictGet_dictSet, hs]
    · by_cases hlt : m < e.high
      · simp [manageRiskStep, hinv, hd, hlt, dictGet_dictSet, hs]
      · by_cases hlow : e.low < m * (1 - f)
        · simp [manageRiskStep, hinv, hd, hlt, hlow, List.filter_cons, hs]
        · simp [manageRiskStep, hinv, hd, hlt, hlow]

/-- One full `ManageRisk` pass seen through one identifier: its final
binding and its emitted targets are computed by the per-identifier run on
the snapshot entries that carry that identifier, in snapshot order. -/
theorem manageRisk_proj (f : ℚ) (s : ℕ) : ∀ (es : List Entry) (th : TrailingHighs),
    dictGet (manageRisk f th es).1 s
      = (runSym f (dictGet th s) (es.filter (fun e => e.symbol == s))).1
    ∧ (manageRisk f th es).2.filter (fun t => t.symbol == s)
      = (runSym f (dictGet th s) (es.filter (fun e => e.symbol == s))).2 := by
  intro es
  induction es with
  | nil => intro th; simp [manageRisk, runSym]
  | cons e rest ih =>
    intro th
    by_cases hs : e.symbol = s
    · obtain ⟨hp1, hp2⟩ := manageRiskStep_proj_eq f th e s hs
      obtain ⟨ih1, ih2⟩ := ih (manageRiskStep f th e).1
      have hfc : (e :: rest).filter (fun x => x.symbol == s)
          = e :: rest.filter (fun x => x.symbol == s) := by
        simp [List.filter_cons, hs]
      rw [hfc]
      constructor
      · simp only [manageRisk, runSym]
        rw [← hp1, ih1]
      · simp only [manageRisk, runSym]
        rw [List.filter_append, hp2, ih2, ← hp1]
    · obtain ⟨hp1, hp2⟩ := manageRiskStep_proj_ne f th e s hs
      obtain ⟨ih1, ih2⟩ := ih (manageRiskStep f th e).1
      have hfc : (e :: rest).filter (fun x => x.symbol == s)
          = rest.filter (fun x => x.symbol == s) := by
        simp [List.filter_cons, hs]
      rw [hfc]
      constructor
      · simp only [manageRisk]
        rw [ih1, hp1]
      · simp only [manageRisk]
        rw [List.filter_append, hp2, ih2, hp1]
        simp

/-- Per-identifier runs compose over concatenation of entry lists. -/
theorem runSym_append (f : ℚ) : ∀ (a b : List Entry) (st : Option ℚ),
    runSym f st (a ++ b)
      = ((runSym f (runSym f st a).1 b).1,
         (runSym f st a).2 ++ (runSym f (runSym f st a).1 b).2) := by
  intro a
  induction a with
  | nil => intro b st; simp [runSym]
  | cons e rest ih =>
    intro b st
    simp only [List.cons_append, runSym, List.append_eq]
    rw [ih]
    simp [List.append_assoc]

/-- The tick-structured per-identifier run reaches the same final value as
the flat run on the concatenation of the ticks. -/
theorem runSymTicks_state_join (f : ℚ) : ∀ (ts : List (List Entry)) (st : Option ℚ),
    (runSymTicks f st ts).1 = (runSym f st ts.flatten).1 := by
  intro ts
  induction ts with
  | nil => intro st; simp [runSymTicks, runSym]
  | cons t rest ih =>
    intro st
    simp only [runSymTicks, List.flatten, runSym_append, ih]

/-- The tick-structured per-identifier outputs concatenate to the flat
run's outputs. -/
theorem runSymTicks_out_join (f : ℚ) : ∀ (ts : List (List Entry)) (st : Option ℚ),
    ((runSymTicks f st ts).2).flatten = (runSym f st ts.flatten).2 := by
  intro ts
  induction ts with
  | nil => intro st; simp [runSymTicks, runSym]
  | cons t rest ih =>
    intro st
    simp only [runSymTicks, List.flatten, runSym_append, ih, List.flatten_cons]

/-- Repeated evaluation seen through one identifier: the final binding and
the per-tick emitted targets for that identifier are computed by the
per-identifier tick run on the per-tick filtered entries. -/
theorem evalTicks_proj (f : ℚ) (s : ℕ) : ∀ (ticks : List (List Entry)) (th : TrailingHighs),
    dictGet (evalTicks f th ticks).1 s
      = (runSymTicks f (dictGet th s)
          (ticks.map (fun t => t.filter (fun e => e.symbol == s)))).1
    ∧ (evalTicks f th ticks).2.map (fun out => out.filter (fun t => t.symbol == s))
      = (runSymTicks f (dictGet th s)
          (ticks.map (fun t => t.filter (fun e => e.symbol == s)))).2 := by
  intro ticks
  induction ticks with
  | nil => intro th; simp [evalTicks, runSymTicks]
  | cons t rest ih =>
    intro th
    obtain ⟨hp1, hp2⟩ := manageRisk_proj f s t th
    obtain ⟨ih1, ih2⟩ := ih (manageRisk f th t).1
    constructor
    · simp only [evalTicks, List.map_cons, runSymTicks]
      rw [ih1, hp1]
    · simp only [evalTicks, List.map_cons, runSymTicks]
      rw [ih2, hp1, hp2]

/-- Maximum of a list of rationals, when the list is nonempty. -/
def listMax? : List ℚ → Option ℚ
  | [] => none
  | x :: xs =>
    match listMax? xs with
    | none => some x
    | some m => some (max x m)

/-- The maximum is absent exactly on the empty list. -/
theorem listMax?_eq_none : ∀ l : List ℚ, listMax? l = none ↔ l = [] := by
  intro l
  cases l with
  | nil => simp [listMax?]
  | cons x xs =>
    simp only [listMax?]
    cases listMax? xs <;> simp

/-- Appending one element takes the maximum with it. -/
theorem listMax?_append_singleton : ∀ (l : List ℚ) (x : ℚ),
    listMax? (l ++ [x])
      = some (match listMax? l with | none => x | some m => max m x) := by
  intro l
  induction l with
  | nil => intro x; simp [listMax?]
  | cons y ys ih =>
    intro x
    simp only [List.cons_append, listMax?, List.append_eq]
    rw [ih x]
    cases h : listMax? ys with
    | none => simp [listMax?, h]
    | some m => simp [listMax?, h, max_assoc]

/-- Entries observed since the last flat observation: a flat entry resets
the run, an invested entry extends it. -/
def investedRun (es : List Entry) : List Entry :=
  es.foldl (fun acc e => if e.invested then acc ++ [e] else []) []

/-- The per-identifier state after a run equals the maximum high over the
entries observed invested since the last flat observation. -/
theorem runSym_state_eq_max (f : ℚ) : ∀ (es : List Entry) (acc : List Entry),
    (runSym f (listMax? (acc.map Entry.high)) es).1
      = listMax? ((es.foldl (fun a e => if e.invested then a ++ [e] else []) acc).map Entry.high) := by
  intro es
  induction es with
  | nil => intro acc; simp [runSym]
  | cons e rest ih =>
    intro acc
    by_cases hinv : e.invested = true
    · have hstep : (stepSym f (listMax? (acc.map Entry.high)) e).1
          = listMax? ((acc ++ [e]).map Entry.high) := by
        simp only [List.map_append, List.map_cons, List.map_nil]
        rw [listMax?_append_singleton]
        cases h : listMax? (acc.map Entry.high) with
        | none => simp [stepSym, hinv, h]
        | some m =>
          by_cases hlt : m < e.high
          · simp [stepSym, hinv, h, hlt, max_eq_right (le_of_lt hlt)]
          · by_cases hlow : e.low < m * (1 - f)
            · simp [stepSym, hinv, h, hlt, hlow, max_eq_left (not_lt.mp hlt)]
            · simp [stepSym, hinv, h, hlt, hlow, max_eq_left (not_lt.mp hlt)]
      simp only [runSym, List.foldl_cons, hinv, if_true]
      rw [hstep, ih (acc ++ [e])]
    · have hinv' : e.invested = false := by simpa using hinv
      have hstep : (stepSym f (listMax? (acc.map Entry.high)) e).1 = none := by
        simp [stepSym, hinv']
      have hnil : (none : Option ℚ) = listMax? (([] : List Entry).map Entry.high) := by
        simp [listMax?]
      simp only [runSym, List.foldl_cons, hinv', if_false]
      rw [hstep, hnil, ih []]
      simp

/-- A run of entries in which every entry is invested and every tick-high
strictly exceeds the stored value carried into that entry (vacuous when no
value is stored yet). -/
def strictlyRising (f : ℚ) : Option ℚ → List Entry → Bool
  | _, [] => true
  | st, e :: es =>
    (e.invested &&
      match st with
      | none => true
      | some m => decide (m < e.high))
    && strictlyRising f (stepSym f st e).1 es

/-- A strictly rising run never emits a target. -/
theorem runSym_out_nil_of_strictlyRising (f : ℚ) : ∀ (es : List Entry) (st : Option ℚ),
    strictlyRising f st es = true → (runSym f st es).2 = [] := by
  intro es
  induction es with
  | nil => intro st _; simp [runSym]
  | cons e rest ih =>
    intro st h
    simp only [strictlyRising, Bool.and_eq_true] at h
    obtain ⟨⟨hinv, hst⟩, hrest⟩ := h
    have hout : (stepSym f st e).2 = [] := by
      cases st with
      | none => simp [stepSym, hinv]
      | some m =>
        have hm : m < e.high := by simpa using hst
        simp [stepSym, hinv, hm]
    simp only [runSym]
    rw [hout, ih _ hrest]
    simp

/-- A run of single-entry ticks that all stay at or below the stored high
`H` while their lows break the drawdown threshold keeps the stored value at
`H` and emits one target on every tick. -/
theorem runSymTicks_drawdown (f H : ℚ) : ∀ es : List Entry,
    es.all (fun e => e.invested && decide (e.high ≤ H) && decide (e.low < H * (1 - f))) = true →
    (runSymTicks f (some H) (es.map (fun e => [e]))).1 = some H
    ∧ (runSymTicks f (some H) (es.map (fun e => [e]))).2
        = es.map (fun e => [PortfolioTarget.mk e.symbol 0]) := by
  intro es
  induction es with
  | nil => intro _; simp [runSymTicks]
  | cons e rest ih =>
    intro h
    simp only [List.all_cons, Bool.and_eq_true, decide_eq_true_eq] at h
    obtain ⟨⟨⟨hinv, hhigh⟩, hlow⟩, hrest⟩ := h
    have hnlt : ¬ (H < e.high) := not_lt.mpr hhigh
    have hrun : runSym f (some H) [e] = (some H, [PortfolioTarget.mk e.symbol 0]) := by
      simp [runSym, stepSym, hinv, hnlt, hlow]
    obtain ⟨ih1, ih2⟩ := ih (by simpa using hrest)
    constructor
    · simp only [List.map_cons, runSymTicks]
      rw [hrun]
      exact ih1
    · simp only [List.map_cons, runSymTicks]
      rw [hrun]
      simp only [ih2]

/-- Trigger predicate of the decision rule at one entry against the current
dictionary: invested, stored high present and not strictly advanced, and
low strictly below the drawdown threshold. -/
def triggers (f : ℚ) (th : TrailingHighs) (e : Entry) : Bool :=
  e.invested &&
    match dictGet th e.symbol with
    | none => false
    | some maxHigh => !decide (maxHigh < e.high) && decide (e.low < maxHigh * (1 - f))

/-- Dictionary states carried into each loop iteration, in snapshot order. -/
def statesAlong (f : ℚ) : TrailingHighs → List Entry → List TrailingHighs
  | _, [] => []
  | th, e :: es => th :: statesAlong f (manageRiskStep f th e).1 es

/-- One loop iteration appends exactly one target when the trigger
predicate holds, none otherwise. -/
theorem step_out_eq_triggers (f : ℚ) (th : TrailingHighs) (e : Entry) :
    (manageRiskStep f th e).2
      = if triggers f th e then [PortfolioTarget.mk e.symbol 0] else [] := by
  by_cases hinv : e.invested = true
  · rcases hd : dictGet th e.symbol with _ | m
    · simp [manageRiskStep, triggers, hinv, hd]
    · by_cases hlt : m < e.high
      · simp [manageRiskStep, triggers, hinv, hd, hlt]
      · by_cases hlow : e.low < m * (1 - f)
        · simp [manageRiskStep, triggers, hinv, hd, hlt, hlow]
        · simp [manageRiskStep, triggers, hinv, hd, hlt, hlow]
  · have hinv' : e.invested = false := by simpa using hinv
    simp [manageRiskStep, triggers, hinv']

/-- Entries recovered from single-entry filtered ticks all carry the
filtered identifier. -/
theorem symbols_of_filter_singletons (s : ℕ) : ∀ (ticks : List (List Entry)) (es : List Entry),
    ticks.map (fun t => t.filter (fun e => e.symbol == s)) = es.map (fun e => [e]) →
    ∀ e ∈ es, e.symbol = s := by
  intro ticks
  induction ticks with
  | nil =>
    intro es h e he
    simp only [List.map_nil] at h
    have : es = [] := by
      cases es with
      | nil => rfl
      | cons a l => simp at h
    subst this
    simp at he
  | cons t rest ih =>
    intro es h e he
    cases es with
    | nil => simp at h
    | cons e0 rest0 =>
      simp only [List.map_cons, List.cons.injEq] at h
      obtain ⟨h1, h2⟩ := h
      rcases List.mem_cons.mp he with rfl | he'
      · have hmem : e ∈ t.filter (fun x => x.symbol == s) := by
          rw [h1]; exact List.mem_singleton.mpr rfl
        have := (List.mem_filter.mp hmem).2
        simpa using this
      · exact ih rest0 h2 e he'

/-- C1: with a stored trailing high `H` for an identifier and configured
fraction `f`, an evaluate tick whose single entry for that identifier is
invested with `tickHigh ≤ H` emits exactly one liquidation instruction
`{identifier, targetSize 0}` for it precisely when
`tickLow < H * (1 - f)`, and none otherwise; in particular a tick with
`tickLow = H * (1 - f)` emits no instruction (strict inequality). -/
theorem C1_threshold_trigger (f H : ℚ) (th : TrailingHighs) (snapshot : List Entry)
    (s : ℕ) (e : Entry)
    (hfilter : snapshot.filter (fun x => x.symbol == s) = [e])
    (hinv : e.invested = true) (hH : dictGet th s = some H) (hhigh : e.high ≤ H) :
    (manageRisk f th snapshot).2.filter (fun t => t.symbol == s)
      = if e.low < H * (1 - f) then [PortfolioTarget.mk s 0] else [] := by
  obtain ⟨_, h2⟩ := manageRisk_proj f s snapshot th
  rw [h2, hfilter, hH]
  have hsym : e.symbol = s := by
    have hmem : e ∈ snapshot.filter (fun x => x.symbol == s) := by
      rw [hfilter]; exact List.mem_singleton.mpr rfl
    simpa using (List.mem_filter.mp hmem).2
  have hnlt : ¬ (H < e.high) := not_lt.mpr hhigh
  by_cases hlow : e.low < H * (1 - f)
  · simp [runSym, stepSym, hinv, hnlt, hlow, hsym]
  · simp [runSym, stepSym, hinv, hnlt, hlow]

/-- C1 witness at `f = 1/20`, stored high `100`, threshold `95`: low `94`
triggers exactly one instruction, low `95` (the exact threshold) none. -/
theorem C1_threshold_trigger_witness :
    (Entry.mk 0 true 100 94).invested = true
    ∧ dictGet [(0, 100)] 0 = some 100
    ∧ (Entry.mk 0 true 100 94).high ≤ (100 : ℚ)
    ∧ (manageRisk (1/20) [(0, 100)] [Entry.mk 0 true 100 94]).2.filter (fun t => t.symbol == 0)
        = (if (Entry.mk 0 true 100 94).low < 100 * (1 - 1/20)
           then [PortfolioTarget.mk 0 0] else [])
    ∧ (manageRisk (1/20) [(0, 100)] [Entry.mk 0 true 100 95]).2.filter (fun t => t.symbol == 0)
        = (if (Entry.mk 0 true 100 95).low < 100 * (1 - 1/20)
           then [PortfolioTarget.mk 0 0] else []) :=
  ⟨rfl, by with_unfolding_all decide, by with_unfolding_all decide,
   C1_threshold_trigger (1/20) 100 [(0, 100)] [Entry.mk 0 true 100 94] 0
     (Entry.mk 0 true 100 94) (by with_unfolding_all decide) rfl
     (by with_unfolding_all decide) (by with_unfolding_all decide),
   C1_threshold_trigger (1/20) 100 [(0, 100)] [Entry.mk 0 true 100 95] 0
     (Entry.mk 0 true 100 95) (by with_unfolding_all decide) rfl
     (by with_unfolding_all decide) (by with_unfolding_all decide)⟩

/-- C2: an invested entry whose identifier has no stored trailing high, or
whose tick-high strictly exceeds the stored one, sets the stored value to
its tick-high and emits no instruction for that identifier on that tick,
whatever its tick-low. -/
theorem C2_establish_or_advance (f : ℚ) (th : TrailingHighs) (snapshot : List Entry)
    (s : ℕ) (e : Entry)
    (hfilter : snapshot.filter (fun x => x.symbol == s) = [e])
    (hinv : e.invested = true)
    (hnew : (match dictGet th s with
             | none => true
             | some m => decide (m < e.high)) = true) :
    dictGet (manageRisk f th snapshot).1 s = some e.high
    ∧ (manageRisk f th snapshot).2.filter (fun t => t.symbol == s) = [] := by
  obtain ⟨h1, h2⟩ := manageRisk_proj f s snapshot th
  rw [h1, h2, hfilter]
  cases hd : dictGet th s with
  | none => simp [runSym, stepSym, hinv, hd]
  | some m =>
    rw [hd] at hnew
    have hm : m < e.high := by simpa using hnew
    simp [runSym, stepSym, hinv, hd, hm]

/-- C2 witness: a previously untracked invested identifier with a very low
tick-low establishes stored high `80` and emits nothing. -/
theorem C2_establish_or_advance_witness :
    (Entry.mk 0 true 80 1).invested = true
    ∧ (match dictGet [] 0 with
       | none => true
       | some m => decide (m < (Entry.mk 0 true 80 1).high)) = true
    ∧ dictGet (manageRisk (1/20) [] [Entry.mk 0 true 80 1]).1 0 = some 80
    ∧ (manageRisk (1/20) [] [Entry.mk 0 true 80 1]).2.filter (fun t => t.symbol == 0) = [] :=
  ⟨rfl, rfl,
   (C2_establish_or_advance (1/20) [] [Entry.mk 0 true 80 1] 0 (Entry.mk 0 true 80 1)
     (by with_unfolding_all decide) rfl rfl).1,
   (C2_establish_or_advance (1/20) [] [Entry.mk 0 true 80 1] 0 (Entry.mk 0 true 80 1)
     (by with_unfolding_all decide) rfl rfl).2⟩

/-- C3: a tick whose entry for an identifier is flat removes its stored
trailing high and emits nothing for it; a later tick reintroducing the
identifier as invested establishes a fresh stored high equal to that
tick's own tick-high, again emitting nothing. -/
theorem C3_flat_eviction_and_reestablish (f : ℚ) (th : TrailingHighs)
    (snap1 snap2 : List Entry) (s : ℕ) (e e2 : Entry)
    (h1 : snap1.filter (fun x => x.symbol == s) = [e]) (he : e.invested = false)
    (h2 : snap2.filter (fun x => x.symbol == s) = [e2]) (he2 : e2.invested = true) :
    dictGet (manageRisk f th snap1).1 s = none
    ∧ (manageRisk f th snap1).2.filter (fun t => t.symbol == s) = []
    ∧ dictGet (manageRisk f (manageRisk f th snap1).1 snap2).1 s = some e2.high
    ∧ (manageRisk f (manageRisk f th snap1).1 snap2).2.filter (fun t => t.symbol == s) = [] := by
  obtain ⟨p1, p2⟩ := manageRisk_proj f s snap1 th
  rw [h1] at p1 p2
  have hs1 : dictGet (manageRisk f th snap1).1 s = none := by
    rw [p1]; simp [runSym, stepSym, he]
  have ho1 : (manageRisk f th snap1).2.filter (fun t => t.symbol == s) = [] := by
    rw [p2]; simp [runSym, stepSym, he]
  obtain ⟨q1, q2⟩ := manageRisk_proj f s snap2 (manageRisk f th snap1).1
  rw [h2, hs1] at q1 q2
  refine ⟨hs1, ho1, ?_, ?_⟩
  · rw [q1]; simp [runSym, stepSym, he2]
  · rw [q2]; simp [runSym, stepSym, he2]

/-- C3 witness: stored high `100` is evicted by a flat tick, and a later
invested tick at high `80` re-establishes `80`, with no instructions. -/
theorem C3_flat_eviction_and_reestablish_witness :
    (Entry.mk 0 false 0 0).invested = false
    ∧ (Entry.mk 0 true 80 70).invested = true
    ∧ dictGet (manageRisk (1/20) [(0, 100)] [Entry.mk 0 false 0 0]).1 0 = none
    ∧ (manageRisk (1/20) [(0, 100)] [Entry.mk 0 false 0 0]).2.filter (fun t => t.symbol == 0) = []
    ∧ dictGet (manageRisk (1/20)
        (manageRisk (1/20) [(0, 100)] [Entry.mk 0 false 0 0]).1
        [Entry.mk 0 true 80 70]).1 0 = some 80
    ∧ (manageRisk (1/20)
        (manageRisk (1/20) [(0, 100)] [Entry.mk 0 false 0 0]).1
        [Entry.mk 0 true 80 70]).2.filter (fun t => t.symbol == 0) = [] := by
  have h := C3_flat_eviction_and_reestablish (1/20) [(0, 100)]
    [Entry.mk 0 false 0 0] [Entry.mk 0 true 80 70] 0
    (Entry.mk 0 false 0 0) (Entry.mk 0 true 80 70)
    (by with_unfolding_all decide) rfl (by with_unfolding_all decide) rfl
  exact ⟨rfl, rfl, h.1, h.2.1, h.2.2.1, h.2.2.2⟩

/-- C4: state invariant of repeated evaluation from a fresh monitor — an
identifier's stored binding is exactly the maximum tick-high over the
entries for it observed invested since its last flat observation (absent
when that run of entries is empty). -/
theorem C4_trailing_high_invariant (f : ℚ) (ticks : List (List Entry)) (s : ℕ) :
    dictGet (evalTicks f [] ticks).1 s
      = listMax? ((investedRun
          ((ticks.map (fun t => t.filter (fun e => e.symbol == s))).flatten)).map Entry.high) := by
  obtain ⟨h1, _⟩ := evalTicks_proj f s ticks []
  rw [h1, runSymTicks_state_join]
  have h0 : dictGet ([] : TrailingHighs) s = listMax? (([] : List Entry).map Entry.high) := by
    simp [dictGet, listMax?]
  rw [h0, runSym_state_eq_max]
  rfl

/-- C5 counterexample: the spec's own Scenario A violates P3 as stated.
After tick one the stored high is `100`; tick two carries tick-high
`100 ≥ 100` (so the monotone-high hypothesis with `≥` holds), yet a
liquidation instruction is emitted because `94 < 95`. -/
theorem C5_counterexample :
    dictGet (evalTicks (1/20) [] [[Entry.mk 0 true 100 98]]).1 0 = some 100
    ∧ (100 : ℚ) ≤ (Entry.mk 0 true 100 94).high
    ∧ (evalTicks (1/20) [] [[Entry.mk 0 true 100 98], [Entry.mk 0 true 100 94]]).2
        = [[], [PortfolioTarget.mk 0 0]] := by
  with_unfolding_all decide

/-- C5 amended: for an identifier whose observed entries are all invested
with tick-high strictly above the stored value carried into each entry, no
liquidation instruction is ever emitted for it, whatever the lows. -/
theorem C5_strictly_rising_no_emission (f : ℚ) (th : TrailingHighs)
    (ticks : List (List Entry)) (s : ℕ)
    (hmono : strictlyRising f (dictGet th s)
        ((ticks.map (fun t => t.filter (fun e => e.symbol == s))).flatten) = true) :
    ((evalTicks f th ticks).2.map (fun out => out.filter (fun t => t.symbol == s))).flatten
      = [] := by
  obtain ⟨_, h2⟩ := evalTicks_proj f s ticks th
  rw [h2, runSymTicks_out_join]
  exact runSym_out_nil_of_strictlyRising f _ _ hmono

/-- C5 amended witness: two ticks with strictly rising highs `100, 110`
and low `1` on the second emit nothing. -/
theorem C5_strictly_rising_no_emission_witness :
    strictlyRising (1/20) (dictGet [] 0)
        (([[Entry.mk 0 true 100 98], [Entry.mk 0 true 110 1]].map
            (fun t => t.filter (fun e => e.symbol == 0))).flatten) = true
    ∧ ((evalTicks (1/20) [] [[Entry.mk 0 true 100 98], [Entry.mk 0 true 110 1]]).2.map
        (fun out => out.filter (fun t => t.symbol == 0))).flatten = [] :=
  ⟨by with_unfolding_all decide,
   C5_strictly_rising_no_emission (1/20) []
     [[Entry.mk 0 true 100 98], [Entry.mk 0 true 110 1]] 0
     (by with_unfolding_all decide)⟩

/-- C6: whenever a loop iteration emits an instruction, it returns the
dictionary unchanged — no record is reset, removed, or touched by the
emission branch. -/
theorem C6_emission_preserves_state (f : ℚ) (th : TrailingHighs) (e : Entry)
    (h : (manageRiskStep f th e).2 ≠ []) :
    (manageRiskStep f th e).1 = th := by
  by_cases hinv : e.invested = true
  · rcases hd : dictGet th e.symbol with _ | m
    · exact absurd (by simp [manageRiskStep, hinv, hd]) h
    · by_cases hlt : m < e.high
      · exact absurd (by simp [manageRiskStep, hinv, hd, hlt]) h
      · by_cases hlow : e.low < m * (1 - f)
        · simp [manageRiskStep, hinv, hd, hlt, hlow]
        · exact absurd (by simp [manageRiskStep, hinv, hd, hlt, hlow]) h
  · have hinv' : e.invested = false := by simpa using hinv
    exact absurd (by simp [manageRiskStep, hinv']) h

/-- C6 witness: a triggering entry for identifier `0` emits and leaves the
two-entry dictionary bit-for-bit as it was. -/
theorem C6_emission_preserves_state_witness :
    (manageRiskStep (1/20) [(0, 100), (1, 7)] (Entry.mk 0 true 100 94)).2 ≠ []
    ∧ (manageRiskStep (1/20) [(0, 100), (1, 7)] (Entry.mk 0 true 100 94)).1
        = [(0, 100), (1, 7)] :=
  ⟨by with_unfolding_all decide,
   C6_emission_preserves_state (1/20) [(0, 100), (1, 7)] (Entry.mk 0 true 100 94)
     (by with_unfolding_all decide)⟩

/-- C7: the constructor takes the absolute value of the configured
fraction, so monitors configured with `f` and `-f` are equal and behave
identically (state evolution and outputs) on every sequence of snapshots. -/
theorem C7_sign_normalized (f : ℚ) (ticks : List (List Entry)) :
    TrailingStopRiskManagementModel.init f = TrailingStopRiskManagementModel.init (-f)
    ∧ evalTicksModel (TrailingStopRiskManagementModel.init f) ticks
        = evalTicksModel (TrailingStopRiskManagementModel.init (-f)) ticks := by
  have h : TrailingStopRiskManagementModel.init f
      = TrailingStopRiskManagementModel.init (-f) := by
    simp [TrailingStopRiskManagementModel.init, abs_neg]
  exact ⟨h, by rw [h]⟩

/-- C8: over a run of consecutive ticks on which an identifier stays
invested, never strictly exceeds the stored high `H`, and keeps its low
strictly below `H * (1 - f)`, evaluate emits one liquidation instruction
for it on every single tick of the run, and the stored high stays `H`. -/
theorem C8_repeated_emission (f H : ℚ) (th : TrailingHighs)
    (ticks : List (List Entry)) (s : ℕ) (es : List Entry)
    (hticks : ticks.map (fun t => t.filter (fun e => e.symbol == s)) = es.map (fun e => [e]))
    (hH : dictGet th s = some H)
    (hes : es.all (fun e => e.invested && decide (e.high ≤ H)
        && decide (e.low < H * (1 - f))) = true) :
    (evalTicks f th ticks).2.map (fun out => out.filter (fun t => t.symbol == s))
      = es.map (fun _ => [PortfolioTarget.mk s 0])
    ∧ dictGet (evalTicks f th ticks).1 s = some H := by
  obtain ⟨h1, h2⟩ := evalTicks_proj f s ticks th
  rw [hticks, hH] at h1 h2
  obtain ⟨d1, d2⟩ := runSymTicks_drawdown f H es hes
  have hsym := symbols_of_filter_singletons s ticks es hticks
  constructor
  · rw [h2, d2]
    apply List.map_congr_left
    intro e he
    rw [hsym e he]
  · rw [h1, d1]

/-- C8 witness: stored high `100`, two consecutive triggering ticks
(high `100 ≤ 100`, low `94 < 95`) emit one instruction each; the record
is still `100` afterwards. -/
theorem C8_repeated_emission_witness :
    ([[Entry.mk 0 true 100 94], [Entry.mk 0 true 100 94]].map
        (fun t => t.filter (fun e => e.symbol == 0)))
      = ([Entry.mk 0 true 100 94, Entry.mk 0 true 100 94].map (fun e => [e]))
    ∧ dictGet [(0, 100)] 0 = some 100
    ∧ ([Entry.mk 0 true 100 94, Entry.mk 0 true 100 94].all
        (fun e => e.invested && decide (e.high ≤ (100 : ℚ))
          && decide (e.low < 100 * (1 - 1/20)))) = true
    ∧ (evalTicks (1/20) [(0, 100)]
        [[Entry.mk 0 true 100 94], [Entry.mk 0 true 100 94]]).2.map
          (fun out => out.filter (fun t => t.symbol == 0))
        = [Entry.mk 0 true 100 94, Entry.mk 0 true 100 94].map
            (fun _ => [PortfolioTarget.mk 0 0])
    ∧ dictGet (evalTicks (1/20) [(0, 100)]
        [[Entry.mk 0 true 100 94], [Entry.mk 0 true 100 94]]).1 0 = some 100 := by
  have h := C8_repeated_emission (1/20) 100 [(0, 100)]
    [[Entry.mk 0 true 100 94], [Entry.mk 0 true 100 94]] 0
    [Entry.mk 0 true 100 94, Entry.mk 0 true 100 94]
    (by with_unfolding_all decide) (by with_unfolding_all decide)
    (by with_unfolding_all decide)
  exact ⟨by with_unfolding_all decide, by with_unfolding_all decide,
    by with_unfolding_all decide, h.1, h.2⟩

/-- C9: the output of one evaluate pass is exactly the in-snapshot-order
selection of the entries satisfying the trigger predicate against the
dictionary state carried into their own iteration, each mapped to
`{identifier, 0}`; in particular it is a subsequence of the snapshot
mapped to targets, so instructions appear in snapshot order. -/
theorem C9_output_in_snapshot_order (f : ℚ) : ∀ (snapshot : List Entry) (th : TrailingHighs),
    (manageRisk f th snapshot).2
      = (snapshot.zip (statesAlong f th snapshot)).filterMap
          (fun p => if triggers f p.2 p.1 then some (PortfolioTarget.mk p.1.symbol 0) else none)
    ∧ (manageRisk f th snapshot).2.Sublist
        (snapshot.map (fun e => PortfolioTarget.mk e.symbol 0)) := by
  intro snapshot
  induction snapshot with
  | nil => intro th; simp [manageRisk, statesAlong]
  | cons e rest ih =>
    intro th
    obtain ⟨ih1, ih2⟩ := ih (manageRiskStep f th e).1
    have hstep := step_out_eq_triggers f th e
    constructor
    · simp only [manageRisk, statesAlong, List.zip_cons_cons, List.filterMap_cons]
      rw [hstep, ih1]
      by_cases htr : triggers f th e = true
      · simp [htr]
      · have htr' : triggers f th e = false := by simpa using htr
        simp [htr']
    · simp only [manageRisk, List.map_cons]
      rw [hstep]
      by_cases htr : triggers f th e = true
      · simp only [htr, if_true, List.singleton_append]
        exact ih2.cons₂ _
      · have htr' : triggers f th e = false := by simpa using htr
        simp only [htr', Bool.false_eq_true, if_false, List.nil_append]
        exact ih2.cons _

/-- C10: an identifier that appears nowhere in the snapshot keeps its
binding (present or absent) completely unchanged by the evaluate pass —
records of unobserved instruments are never created, updated or evicted. -/
theorem C10_unobserved_identifier_unchanged (f : ℚ) (th : TrailingHighs)
    (snapshot : List Entry) (s : ℕ)
    (h : snapshot.all (fun e => e.symbol != s) = true) :
    dictGet (manageRisk f th snapshot).1 s = dictGet th s := by
  obtain ⟨h1, _⟩ := manageRisk_proj f s snapshot th
  have hfilter : snapshot.filter (fun e => e.symbol == s) = [] := by
    rw [List.filter_eq_nil_iff]
    intro e he
    have := List.all_eq_true.mp h e he
    simpa using this
  rw [h1, hfilter]
  simp [runSym]

/-- C10 witness: a flat-dropped identifier `5` with stored high `100`
keeps its stale record through a tick that only observes identifier `0`. -/
theorem C10_unobserved_identifier_unchanged_witness :
    ([Entry.mk 0 true 10 1].all (fun e => e.symbol != 5)) = true
    ∧ dictGet (manageRisk (1/20) [(5, 100)] [Entry.mk 0 true 10 1]).1 5
        = dictGet [(5, 100)] 5 :=
  ⟨by with_unfolding_all decide,
   C10_unobserved_identifier_unchanged (1/20) [(5, 100)] [Entry.mk 0 true 10 1] 5
     (by with_unfolding_all decide)⟩
